import Mathlib

/-!
Verification of the bulk-ingestion core of `src/indexation/elasticSearch.helpers.ts`
(trackdechet-sirene-search).

The TypeScript source is shallowly embedded below.  Pure computations are
translated to Lean functions; interactions with the Elasticsearch cluster are
modelled either as an explicit cluster-state transformation
(`finalizeNewIndexRelease`) or as a list of emitted effects
(`logBulkErrorsAndRetry`, `requestBulkIndex`).  The event-loop concurrency of
`bulkIndexByChunks` is modelled by a small-step scheduler in which request
completions may occur only at `await` points, chosen by an adversarial
schedule.
-/

/-! ## JavaScript string comparison, `parseInt`, and `Array.prototype.sort` -/

/-- JS `<` on strings compares code units left to right; on the BMP strings used
for index names this is the same as comparing the characters. -/
def charListLe : List Char → List Char → Bool
  | [], _ => true
  | _ :: _, [] => false
  | a :: as, b :: bs => if a < b then true else if b < a then false else charListLe as bs

/-- Default JS string ordering (used by `Array.prototype.sort` with no comparator). -/
def jsStrLe (a b : String) : Bool := charListLe a.data b.data

/-- One step of insertion sort with respect to `jsStrLe`. -/
def sortedInsert (a : String) : List String → List String
  | [] => [a]
  | b :: t => if jsStrLe a b then a :: b :: t else b :: sortedInsert a t

/-- Model of `Array.prototype.sort()` on an array of strings: a comparison sort
with the default lexicographic code-unit ordering. -/
def jsSortStrings (l : List String) : List String := l.foldr sortedInsert []

/-- Digit accumulator for `parseInt(s, 10)`. -/
def digitsToNat (ds : List Char) : Nat :=
  ds.foldl (fun n c => n * 10 + (c.toNat - '0'.toNat)) 0

/-- Longest leading digit run, `none` when there is none (the NaN case). -/
def jsParseDigits (cs : List Char) : Option Nat :=
  match cs.takeWhile Char.isDigit with
  | [] => none
  | ds => some (digitsToNat ds)

def jsWhitespace (c : Char) : Bool :=
  c == ' ' || c == '\t' || c == '\n' || c == '\r'

/-- Model of JS `parseInt(s, 10)`: skip leading whitespace, optional sign,
longest digit run; `none` models `NaN`. -/
def jsParseInt (s : String) : Option Int :=
  match s.data.dropWhile jsWhitespace with
  | '-' :: rest => (jsParseDigits rest).map (fun n => -(n : Int))
  | '+' :: rest => (jsParseDigits rest).map (fun n => (n : Int))
  | rest => (jsParseDigits rest).map (fun n => (n : Int))

/-- JS `env || dflt`: an unset variable (`undefined`) and the empty string are
both falsy and fall back to the default. -/
def envOrDefault (env : Option String) (dflt : String) : String :=
  match env with
  | none => dflt
  | some s => if s.isEmpty then dflt else s

/-- `elasticSearch.helpers.ts` lines 249-253:
`isNaN(parseInt(process.env.TD_SIRENE_INDEX_MAX_CONCURRENT_REQUESTS || "1", 10)) ? 2
 : parseInt(process.env.TD_SIRENE_INDEX_MAX_CONCURRENT_REQUESTS || "1", 10)`. -/
def maxConcurrentRequestsConfig (env : Option String) : Int :=
  match jsParseInt (envOrDefault env "1") with
  | none => 2
  | some n => n

/-! ## Chunker and dispatcher (`bulkIndexByChunks`, lines 234-276)

`chunkSlices` models the loop `for (let i = 0; i < body.length; i += CHUNK_SIZE)`
taking `body.slice(i, i + CHUNK_SIZE)`.  The fuel argument is the list length:
each iteration consumes at least one element because `CHUNK_SIZE >= 1`
(a falsy `0` from the environment falls back to 10000). -/

def chunkSlicesGo (c : Nat) : List α → Nat → List (List α)
  | [], _ => []
  | _ :: _, 0 => []
  | body, fuel + 1 => body.take c :: chunkSlicesGo c (body.drop c) fuel

def chunkSlices (c : Nat) (body : List α) : List (List α) :=
  chunkSlicesGo c body body.length

/-- The sequence of slices handed to `request`, in submission order.  For each
chunk the loop body first evaluates `const promise = request(indexName,
indexConfig, slice)` (which starts the request), and then, when
`maxConcurrentRequests <= 1`, takes the `else` branch
`await request(indexName, indexConfig, slice)` which starts a second request
for the same slice. -/
def chunkSubmissions (m : Int) : List (List α) → List (List α)
  | [] => []
  | s :: rest => (if m > 1 then [s] else [s, s]) ++ chunkSubmissions m rest

/-- `bulkIndexByChunks`, viewed through the slices it submits to `request`:
when `CHUNK_SIZE > body.length` the whole body is sent in a single call,
otherwise the chunk loop runs. -/
def bulkIndexByChunks (chunkSize : Nat) (m : Int) (body : List α) : List (List α) :=
  if body.length < chunkSize then [body]
  else chunkSubmissions m (chunkSlices chunkSize body)

/-- The actual `client.bulk` calls issued: `requestBulkIndex` returns without a
request when the (flattened) slice is empty, and otherwise issues exactly one
bulk call for the slice. -/
def bulkCalls (chunkSize : Nat) (m : Int) (body : List α) : List (List α) :=
  (bulkIndexByChunks chunkSize m body).filter (fun s => !s.isEmpty)

/-! ## Event-loop model of the admission-control loop (lines 245-275)

JavaScript is single threaded: a request started by `request(...)` can only
complete while the dispatcher is suspended at an `await`.  A schedule lists,
for each `await` executed by the loop, the set of in-flight requests that
complete during that suspension.  `await Promise.race(promises)` may resume
only when some member of the `promises` array is settled -- including promises
settled during an earlier await, since the loop never removes settled promises
from the array. -/

structure DispatchState where
  pending : List Nat
  settled : List Nat
  promisesArr : List Nat
  counter : Nat
  nextId : Nat
  maxInFlight : Nat
deriving DecidableEq

/-- Starting a request: it becomes pending; the high-water mark of
simultaneously outstanding calls is updated. -/
def startRequest (st : DispatchState) : DispatchState × Nat :=
  ({ st with pending := st.pending ++ [st.nextId], nextId := st.nextId + 1,
             maxInFlight := max st.maxInFlight (st.pending.length + 1) }, st.nextId)

/-- The requests in `e` complete. -/
def settleSet (st : DispatchState) (e : List Nat) : DispatchState :=
  { st with pending := st.pending.filter (fun p => !(e.contains p)),
            settled := st.settled ++ e }

/-- `await Promise.race(promises)` with completions `e` during the suspension:
only in-flight requests may complete, and the race may resume only when some
promise in the array is settled (possibly settled before this await). -/
def raceAwait (st : DispatchState) (e : List Nat) : Option DispatchState :=
  if e.all (fun x => st.pending.contains x)
      && st.promisesArr.any (fun p => (st.settled ++ e).contains p)
  then some (settleSet st e) else none

/-- `await promise` for one specific promise `id` with completions `e`: the
awaited promise itself must have completed for the await to resume. -/
def awaitPromise (st : DispatchState) (id : Nat) (e : List Nat) : Option DispatchState :=
  if e.all (fun x => st.pending.contains x) && (st.settled ++ e).contains id
  then some (settleSet st e) else none

/-- The chunk loop of `bulkIndexByChunks`, one iteration per chunk.  With
`m > 1` the promise is pushed, the in-flight counter incremented, and when the
counter reaches `m` the loop awaits `Promise.race(promises)` and decrements.
With `m <= 1` the slice is requested a second time and that promise is awaited
directly.  Returns `none` when the schedule is not a valid execution. -/
def dispatchLoop (m : Int) : Nat → List (List Nat) → DispatchState → Option DispatchState
  | 0, _, st => some st
  | n + 1, sched, st =>
    let p := startRequest st
    if m > 1 then
      let st2 := { p.1 with promisesArr := p.1.promisesArr ++ [p.2],
                            counter := p.1.counter + 1 }
      if (st2.counter : Int) ≥ m then
        match sched with
        | [] => none
        | e :: rest =>
          match raceAwait st2 e with
          | some st3 => dispatchLoop m n rest { st3 with counter := st3.counter - 1 }
          | none => none
      else dispatchLoop m n sched st2
    else
      let q := startRequest p.1
      match sched with
      | [] => none
      | e :: rest =>
        match awaitPromise q.1 q.2 e with
        | some st3 => dispatchLoop m n rest st3
        | none => none

/-- Maximum number of simultaneously outstanding bulk-write calls over a run of
the dispatcher on `numChunks` chunks under a given completion schedule. -/
def bulkDispatchMaxInFlight (m : Int) (numChunks : Nat) (sched : List (List Nat)) : Option Nat :=
  (dispatchLoop m numChunks sched ⟨[], [], [], 0, 0, 0⟩).map (fun st => st.maxInFlight)

/-! ## Bulk executor data model (`logBulkErrorsAndRetry`, lines 127-176,
and `requestBulkIndex`, lines 189-213) -/

/-- A CSV record / JSON document: a mapping from column name to string value. -/
abbrev CsvRecord := List (String × String)

/-- JS property access `doc[key]` on an object with unique keys. -/
def jsGet (doc : CsvRecord) (key : String) : Option String :=
  (doc.find? (fun kv => kv.1 == key)).map (fun kv => kv.2)

/-- The `index` metadata object of a bulk action:
`\x7b _id, _index, _type \x7d`, each possibly absent. -/
structure IndexMeta where
  id : Option String
  index : Option String
  typ : Option String
deriving DecidableEq

/-- One entry of the flattened bulk body: either an action-metadata container
(an object with an `index` key) or a document payload. -/
inductive BulkBodyEntry where
  | action (meta : IndexMeta)
  | document (doc : CsvRecord)
deriving DecidableEq

/-- JS `entry.index?._id`: `undefined` when the entry has no `index` key. -/
def jsIndexId : BulkBodyEntry → Option String
  | .action meta => meta.id
  | .document _ => none

/-- One operation result inside a bulk response item: an HTTP-like status and
an optional error payload. -/
structure BulkItemOp where
  status : Option Nat
  error : Option String
deriving DecidableEq

/-- A bulk response item, iterated as `Object.keys(action)`: operation name to
operation result. -/
abbrev BulkResponseItem := List (String × BulkItemOp)

structure BulkResponse where
  errors : Bool
  items : List BulkResponseItem
deriving DecidableEq

/-- Effects emitted by the bulk executor, in program order. -/
inductive EsEffect where
  | bulkAttempt (body : List BulkBodyEntry)
  | fatalBulkErrorLog (indexName : String)
  | retryWarnLog (id : Option String) (indexName : String)
  | retryIndexCall (indexName : String) (id : Option String) (body : Option BulkBodyEntry)
  | retryErrorLog (id : Option String) (indexName : String)
  | bulkErrorLog (status : Nat) (error : Option String) (body : Option BulkBodyEntry)
deriving DecidableEq

/-- `body[k * 2].index?._id`. -/
def bodyId (body : List BulkBodyEntry) (k : Nat) : Option String :=
  (body.get? (2 * k)).bind jsIndexId

/-- `body[k * 2 + 1]`. -/
def bodyDoc (body : List BulkBodyEntry) (k : Nat) : Option BulkBodyEntry :=
  body.get? (2 * k + 1)

/-- Body of the inner loop of `logBulkErrorsAndRetry` for one operation of the
`k`-th response item.  `rf k opName` says whether the single-document retry
`client.index(...)` itself fails (its rejection is caught and logged).
The guard mirrors `if (opType && action[opType]?.error)`, and the 429 branch
mirrors the warn + retry + catch sequence; the error log at the end runs for
every failed operation, 429 or not. -/
def processOp (indexName : String) (body : List BulkBodyEntry) (rf : Nat → String → Bool)
    (k : Nat) (opName : String) (op : BulkItemOp) : List EsEffect :=
  if opName != "" && op.error.isSome then
    (if op.status == some 429 then
      [.retryWarnLog (bodyId body k) indexName,
       .retryIndexCall indexName (bodyId body k) (bodyDoc body k)]
      ++ (if rf k opName then [.retryErrorLog (bodyId body k) indexName] else [])
    else [])
    ++ [.bulkErrorLog (op.status.getD 0) op.error (bodyDoc body k)]
  else []

/-- `for (const operation of operations)` over `Object.keys(action)`. -/
def processOps (indexName : String) (body : List BulkBodyEntry) (rf : Nat → String → Bool)
    (k : Nat) : BulkResponseItem → List EsEffect
  | [] => []
  | (opName, op) :: rest =>
    processOp indexName body rf k opName op ++ processOps indexName body rf k rest

/-- `for (let k = 0; k < bulkResponse.items.length; k++)`. -/
def processItems (indexName : String) (body : List BulkBodyEntry) (rf : Nat → String → Bool) :
    Nat → List BulkResponseItem → List EsEffect
  | _, [] => []
  | k, item :: rest =>
    processOps indexName body rf k item ++ processItems indexName body rf (k + 1) rest

/-- `logBulkErrorsAndRetry(indexName, bulkResponse, body)`: nothing happens
unless `bulkResponse.errors` is set. -/
def logBulkErrorsAndRetry (indexName : String) (resp : BulkResponse)
    (body : List BulkBodyEntry) (rf : Nat → String → Bool) : List EsEffect :=
  if resp.errors then processItems indexName body rf 0 resp.items else []

def isRetryIndexCall : EsEffect → Bool
  | .retryIndexCall _ _ _ => true
  | _ => false

/-- The single-document retry writes among a list of effects. -/
def retryCalls (effects : List EsEffect) : List EsEffect :=
  effects.filter isRetryIndexCall

def isBulkErrorLog : EsEffect → Bool
  | .bulkErrorLog _ _ _ => true
  | _ => false

/-- The per-item bulk-index error logs among a list of effects. -/
def errorLogs (effects : List EsEffect) : List EsEffect :=
  effects.filter isBulkErrorLog

/-- Specification of the retries for one response item: one single-document
write per failed operation with status 429, addressed by the id at flattened
position `2k` and carrying the document at flattened position `2k + 1`. -/
def retrySpecOps (indexName : String) (body : List BulkBodyEntry) (k : Nat)
    (item : BulkResponseItem) : List EsEffect :=
  (item.filter (fun p => p.1 != "" && p.2.error.isSome && p.2.status == some 429)).map
    (fun _ => EsEffect.retryIndexCall indexName (bodyId body k) (bodyDoc body k))

def retrySpec (indexName : String) (body : List BulkBodyEntry) :
    Nat → List BulkResponseItem → List EsEffect
  | _, [] => []
  | k, item :: rest =>
    retrySpecOps indexName body k item ++ retrySpec indexName body (k + 1) rest

/-- Specification of the error logs for one response item: one log per failed
operation, whatever its status, with the status (0 when absent), the error
payload and the document at flattened position `2k + 1`. -/
def errorLogSpecOps (body : List BulkBodyEntry) (k : Nat)
    (item : BulkResponseItem) : List EsEffect :=
  (item.filter (fun p => p.1 != "" && p.2.error.isSome)).map
    (fun p => EsEffect.bulkErrorLog (p.2.status.getD 0) p.2.error (bodyDoc body k))

def errorLogSpec (body : List BulkBodyEntry) :
    Nat → List BulkResponseItem → List EsEffect
  | _, [] => []
  | k, item :: rest =>
    errorLogSpecOps body k item ++ errorLogSpec body (k + 1) rest

/-- `requestBulkIndex(body)` (lines 189-213).  `outcome` is the result of
`client.bulk`: `none` models a transport-level rejection, `some resp` a
structurally successful response.  The whole body is wrapped in try/catch, so
the function always resolves (`Except.ok`); a transport failure is logged and
the function returns without retrying. -/
def requestBulkIndex (indexName : String) (outcome : Option BulkResponse)
    (rf : Nat → String → Bool) (body : List BulkBodyEntry) :
    Except String (List EsEffect) :=
  if body.length = 0 then .ok []
  else
    match outcome with
    | none => .ok [.bulkAttempt body, .fatalBulkErrorLog indexName]
    | some resp => .ok (.bulkAttempt body :: logBulkErrorsAndRetry indexName resp body rf)

/-! ## Batch formatter (`getWritableParserAndIndexer`, lines 290-321) -/

/-- Outcome of the per-line mapping inside `writev`: a logged drop (missing or
empty id), a silent drop (header-row echo), or the two-element action produced
for the record. -/
inductive FormatResult where
  | droppedLogged
  | droppedSilent
  | emit (pair : BulkBodyEntry × BulkBodyEntry)
deriving DecidableEq

/-- The body of `csvLines.map` in `writev`: skip when `doc[idKey]` is
`undefined` or has length 0 (logging an error), skip silently when it equals
`idKey` itself, otherwise produce the action-metadata / document pair targeted
at the current generation index. -/
def formatCsvLine (idKey indexName : String) (doc : CsvRecord) : FormatResult :=
  match jsGet doc idKey with
  | none => .droppedLogged
  | some v =>
    if v.length = 0 then .droppedLogged
    else if v == idKey then .droppedSilent
    else .emit (.action ⟨some v, some indexName, some "_doc"⟩, .document doc)

/-! ## CSV transform hook (`streamReadAndIndex`, lines 354-358) -/

/-- The transform function installed on the CSV parser.  A supplied hook is
abstracted by the list of rows it forwards through its callback; when no hook
is configured the installed function never invokes the callback, so it
forwards nothing. -/
def transformCsvStep (transformCsv : Option (CsvRecord → List CsvRecord))
    (data : CsvRecord) : List CsvRecord :=
  match transformCsv with
  | some f => f data
  | none => []

/-- All rows forwarded to the downstream formatter over a whole parse. -/
def forwardedRows (transformCsv : Option (CsvRecord → List CsvRecord))
    (rows : List CsvRecord) : List CsvRecord :=
  rows.flatMap (transformCsvStep transformCsv)

/-! ## Index creation (`createIndexRelease`, lines 39-61) -/

/-- A JSON value as assembled by the object literal in `client.indices.create`. -/
inductive JsVal where
  | num (n : Int)
  | str (s : String)
  | obj (fields : List (String × JsVal))

abbrev JsObj := List (String × JsVal)

/-- JS property lookup on an object built left to right. -/
def jsLookup (o : JsObj) (key : String) : Option JsVal :=
  (o.find? (fun kv => kv.1 == key)).map (fun kv => kv.2)

/-- JS object spread: keys of the later object override keys of the earlier
one. -/
def jsSpread (a b : JsObj) : JsObj :=
  a.filter (fun kv => (b.find? (fun kv2 => kv2.1 == kv.1)).isNone) ++ b

/-- The indexing-optimized transient settings of a fresh generation. -/
def transientSettings : JsObj :=
  [("refresh_interval", .num (-1)), ("number_of_replicas", .num 0)]

/-- The request body of `client.indices.create`: the spread of the optional
`mappings` wrapper, the transient settings wrapper, and the optional
caller-supplied `settings` wrapper, in that order. -/
def createIndexBody (mappings : Option JsObj) (settings : Option JsObj) : JsObj :=
  jsSpread
    (jsSpread
      (match mappings with | some m => [("mappings", .obj m)] | none => [])
      [("settings", .obj transientSettings)])
    (match settings with | some s => [("settings", .obj s)] | none => [])

/-- The value of a key inside the effective `settings` object of a create
body. -/
def effectiveSetting (body : JsObj) (key : String) : Option JsVal :=
  match jsLookup body "settings" with
  | some (.obj fields) => jsLookup fields key
  | _ => none

/-! ## Generation manager (`finalizeNewIndexRelease`, lines 67-122)

The separator `INDEX_ALIAS_NAME_SEPARATOR` (imported from
`indexInsee.helpers`) and the package version `pjson.version` are kept as
parameters `sep` and `ver`.  The cluster is modelled by the set of index
names, the alias bindings, and the per-index settings applied by
`putSettings`. -/

structure ClusterState where
  indices : List String
  aliasPairs : List (String × String)
  finalSettings : List (String × (String × String))
deriving DecidableEq

/-- `client.cat.aliases(\x7b name \x7d)` followed by `.map(info => info.index)`:
the indices currently bound to the alias. -/
def boundIndexes (s : ClusterState) (indexAlias : String) : List String :=
  (s.aliasPairs.filter (fun p => p.1 == indexAlias)).map (fun p => p.2)

/-- ES wildcard pattern `pat*`: all names beginning with `pat`. -/
def matchesIndexPattern (pat name : String) : Bool :=
  name.data.take pat.data.length == pat.data

/-- The single atomic `client.indices.updateAliases` action set: remove the
alias from every currently bound index (when any), then add it to the new
index. -/
def aliasSwapPairs (indexAlias indexName : String) (s : ClusterState) :
    List (String × String) :=
  (if (boundIndexes s indexAlias).isEmpty then s.aliasPairs
   else s.aliasPairs.filter
     (fun p => !(p.1 == indexAlias && (boundIndexes s indexAlias).contains p.2)))
  ++ [(indexAlias, indexName)]

/-- `client.cat.indices` on the pattern `alias + sep + version + sep + "*"`,
minus the new index, sorted with `Array.prototype.sort()`, with the last
(most recent) element popped off as the rollback survivor: the indices passed
to `client.indices.delete`. -/
def oldIndicesToDelete (sep ver indexAlias indexName : String) (s : ClusterState) :
    List String :=
  (jsSortStrings
    ((s.indices.filter
        (fun n => matchesIndexPattern (indexAlias ++ sep ++ ver ++ sep) n)).filter
      (fun n => n != indexName))).dropLast

/-- `finalizeNewIndexRelease(indexAlias, indexName)`: apply production
settings to the new index, atomically swap the alias, and delete all older
matching generations except the most recent one.  Deleting an index also
removes its alias bindings; when `oldIndices` is empty no delete request is
issued, which leaves the state unchanged exactly like the empty filter. -/
def finalizeNewIndexRelease (sep ver nbReplicas refreshInterval indexAlias indexName : String)
    (s : ClusterState) : ClusterState :=
  let toDelete := oldIndicesToDelete sep ver indexAlias indexName s
  { indices := s.indices.filter (fun n => !(toDelete.contains n)),
    aliasPairs := (aliasSwapPairs indexAlias indexName s).filter
      (fun p => !(toDelete.contains p.2)),
    finalSettings := (indexName, (nbReplicas, refreshInterval)) :: s.finalSettings }

/-! ## Concrete sample data used by witnesses and counterexamples -/

def sampleMeta : IndexMeta := ⟨some "id1", some "gen-idx", some "_doc"⟩

def sampleDoc : BulkBodyEntry := .document [("siret", "123")]

def sampleBody : List BulkBodyEntry := [.action sampleMeta, sampleDoc]

def sampleOp429 : BulkItemOp := ⟨some 429, some "es_rejected_execution_exception"⟩

def sampleResp429 : BulkResponse := ⟨true, [[("index", sampleOp429)]]⟩

def rfAlwaysFail : Nat → String → Bool := fun _ _ => true

def rfNeverFail : Nat → String → Bool := fun _ _ => false

/-- A cluster in steady state: generation `td-0-2` is bound to the alias and is
the most recent generation besides the new `td-0-3`. -/
def sampleCluster : ClusterState :=
  ⟨["td-0-1", "td-0-2", "td-0-3"], [("td", "td-0-2")], []⟩

/-- A cluster where the bound generation `td-0-1` is not the most recent old
one: an unbound, newer `td-0-2` also exists. -/
def staleBoundCluster : ClusterState :=
  ⟨["td-0-1", "td-0-2", "td-0-3"], [("td", "td-0-1")], []⟩

/-! ## Claims about the dispatcher and configuration -/

/-- C1: the claim states that `bulkIndexByChunks` issues exactly `ceil(N/C)`
bulk-write calls whose concatenation reconstructs the batch, and that with
`M = 1` each chunk is submitted exactly once.  The code violates this: with
`M = 1` and `N >= C` every chunk is requested twice (the promise created
before the concurrency check plus the awaited sequential request), so 4 bulk
calls are issued for a 4-action batch with chunk size 2 instead of
`ceil(4/2) = 2`, and the concatenation duplicates every action. -/
theorem claim_C1_duplicate_submissions :
    bulkCalls 2 1 [0, 1, 2, 3] = [[0, 1], [0, 1], [2, 3], [2, 3]]
    ∧ (bulkCalls 2 1 [0, 1, 2, 3]).length ≠ (4 + 2 - 1) / 2 := by
  decide

/-- C2: the claim states that the number of outstanding bulk-write calls never
exceeds the cap `M`.  The code violates this: `Promise.race(promises)` is
called on an array from which settled promises are never removed, so once one
request has completed every later race resolves immediately and the counter is
decremented without any new completion.  With `M = 2`, four chunks, and a
schedule in which only the first request ever completes during the loop, three
requests are simultaneously in flight. -/
theorem claim_C2_cap_exceeded :
    bulkDispatchMaxInFlight 2 4 [[0], [], []] = some 3 ∧ ¬(3 ≤ 2) := by
  decide

/-- C4: the claim states that an unset environment variable yields a default
concurrency cap of 2.  The code computes `parseInt("1", 10) = 1` when the
variable is unset, so the default is 1; the fallback value 2 is only reached
when the variable is set to a string that does not parse as a number. -/
theorem claim_C4_default_concurrency :
    maxConcurrentRequestsConfig none = 1
    ∧ maxConcurrentRequestsConfig (some "4") = 4
    ∧ maxConcurrentRequestsConfig (some "auto") = 2 := by
  decide

/-! ## Claims about index creation -/

/-- C5 counterexample: a caller-supplied settings object that does not mention
`refresh_interval` nevertheless erases the transient `refresh_interval: -1`,
because the spread replaces the whole `settings` object rather than layering
keys.  Without an override the transient value is present. -/
theorem claim_C5_counterexample :
    effectiveSetting (createIndexBody none (some [("number_of_shards", JsVal.num 5)]))
      "refresh_interval" = none
    ∧ effectiveSetting (createIndexBody none none) "refresh_interval"
      = some (JsVal.num (-1)) :=
  ⟨rfl, rfl⟩

/-- C5 (amended): `createIndexRelease` creates the generation with the
transient indexing-optimized settings only when the caller supplies no
settings override; a caller-supplied settings object replaces the transient
settings entirely, while a mappings override is included independently. -/
theorem claim_C5_settings_replaced (mappings settings : Option JsObj) :
    (settings = none →
      effectiveSetting (createIndexBody mappings settings) "refresh_interval"
          = some (JsVal.num (-1))
      ∧ effectiveSetting (createIndexBody mappings settings) "number_of_replicas"
          = some (JsVal.num 0))
    ∧ (∀ s0, settings = some s0 →
        jsLookup (createIndexBody mappings settings) "settings" = some (.obj s0))
    ∧ (∀ m0, mappings = some m0 →
        jsLookup (createIndexBody mappings settings) "mappings" = some (.obj m0)) := by
  refine ⟨?_, ?_, ?_⟩
  · rintro rfl
    cases mappings <;> exact ⟨rfl, rfl⟩
  · rintro s0 rfl
    cases mappings <;> rfl
  · rintro m0 rfl
    cases settings <;> rfl

/-- C5 witness for `claim_C5_settings_replaced`. -/
theorem claim_C5_witness :
    (effectiveSetting (createIndexBody (some [("properties", JsVal.obj [])]) none)
        "refresh_interval" = some (JsVal.num (-1))
      ∧ effectiveSetting (createIndexBody (some [("properties", JsVal.obj [])]) none)
        "number_of_replicas" = some (JsVal.num 0))
    ∧ jsLookup (createIndexBody none (some [("number_of_shards", JsVal.num 5)]))
        "settings" = some (.obj [("number_of_shards", JsVal.num 5)]) :=
  ⟨(claim_C5_settings_replaced (some [("properties", JsVal.obj [])]) none).1 rfl,
   (claim_C5_settings_replaced none (some [("number_of_shards", JsVal.num 5)])).2.1
     [("number_of_shards", JsVal.num 5)] rfl⟩

/-! ## Claims about the bulk executor -/

/-- C7: on a transport-level failure of the whole bulk request the executor
logs the failure and resolves normally -- the single attempted call is neither
retried nor propagated -- and an empty action sequence is a no-op success with
no bulk request issued at all. -/
theorem claim_C7_transport_failure (indexName : String) (outcome : Option BulkResponse)
    (rf : Nat → String → Bool) (body : List BulkBodyEntry) :
    (body = [] → requestBulkIndex indexName outcome rf body = .ok [])
    ∧ (body ≠ [] → requestBulkIndex indexName none rf body
        = .ok [.bulkAttempt body, .fatalBulkErrorLog indexName]) := by
  constructor
  · rintro rfl; rfl
  · intro h
    have hlen : ¬(body.length = 0) := fun h0 => h (List.length_eq_zero.mp h0)
    simp [requestBulkIndex, hlen]

/-- C7 witness for `claim_C7_transport_failure`. -/
theorem claim_C7_witness :
    requestBulkIndex "gen" none rfNeverFail [] = .ok []
    ∧ requestBulkIndex "gen" none rfNeverFail sampleBody
      = .ok [.bulkAttempt sampleBody, .fatalBulkErrorLog "gen"] :=
  ⟨(claim_C7_transport_failure "gen" none rfNeverFail []).1 rfl,
   (claim_C7_transport_failure "gen" none rfNeverFail sampleBody).2 (by decide)⟩

/-! ## Claim about the CSV transform hook -/

/-- C10: when `indexConfig.transformCsv` is not supplied the installed
transform never invokes its callback, so no record from the source is ever
forwarded to the formatter or indexed. -/
theorem claim_C10_no_transform_no_rows :
    (∀ data : CsvRecord, transformCsvStep none data = [])
    ∧ ∀ rows : List CsvRecord, forwardedRows none rows = [] := by
  constructor
  · intro data; rfl
  · intro rows
    simp [forwardedRows, transformCsvStep]

/-! ## Claim about the batch formatter -/

/-- A string has length 0 exactly when it is empty. -/
theorem stringLengthEqZero (s : String) : s.length = 0 ↔ s = "" := by
  constructor
  · intro h
    cases s with
    | mk l =>
      have hl : l = [] := List.length_eq_zero.mp (by simpa [String.length] using h)
      subst hl
      rfl
  · rintro rfl
    rfl

/-- C8: for every raw record the formatter drops with an error log when the
identifier column is absent or empty, drops silently when the identifier value
equals the column name itself, and otherwise emits exactly one write action
whose id is the identifier value, targeted at the current generation index and
paired with the record. -/
theorem claim_C8_formatter (idKey indexName : String) (doc : CsvRecord) :
    (jsGet doc idKey = none → formatCsvLine idKey indexName doc = .droppedLogged)
    ∧ (jsGet doc idKey = some "" → formatCsvLine idKey indexName doc = .droppedLogged)
    ∧ (idKey ≠ "" → jsGet doc idKey = some idKey →
        formatCsvLine idKey indexName doc = .droppedSilent)
    ∧ (∀ v, jsGet doc idKey = some v → v ≠ "" → v ≠ idKey →
        formatCsvLine idKey indexName doc
          = .emit (.action ⟨some v, some indexName, some "_doc"⟩, .document doc)) := by
  refine ⟨?_, ?_, ?_, ?_⟩
  · intro h; simp [formatCsvLine, h]
  · intro h; simp [formatCsvLine, h]
  · intro hk h
    have hlen : ¬(idKey.length = 0) := fun h0 => hk ((stringLengthEqZero idKey).mp h0)
    simp [formatCsvLine, h, hlen]
  · intro v h hv hvk
    have hlen : ¬(v.length = 0) := fun h0 => hv ((stringLengthEqZero v).mp h0)
    have hbeq : (v == idKey) = false := beq_eq_false_iff_ne.mpr hvk
    simp [formatCsvLine, h, hlen, hbeq]

/-- C8 witness for `claim_C8_formatter`. -/
theorem claim_C8_witness :
    formatCsvLine "siret" "gen" [("other", "1")] = .droppedLogged
    ∧ formatCsvLine "siret" "gen" [("siret", "")] = .droppedLogged
    ∧ formatCsvLine "siret" "gen" [("siret", "siret")] = .droppedSilent
    ∧ formatCsvLine "siret" "gen" [("siret", "529")]
      = .emit (.action ⟨some "529", some "gen", some "_doc"⟩,
               .document [("siret", "529")]) :=
  ⟨(claim_C8_formatter "siret" "gen" [("other", "1")]).1 rfl,
   (claim_C8_formatter "siret" "gen" [("siret", "")]).2.1 rfl,
   (claim_C8_formatter "siret" "gen" [("siret", "siret")]).2.2.1 (by decide) rfl,
   (claim_C8_formatter "siret" "gen" [("siret", "529")]).2.2.2 "529" rfl (by decide) (by decide)⟩

/-! ## Characterization of the retry and error-log effects -/

/-- Filtering the retries out of the effects of one operation yields exactly
the singleton-item specification. -/
theorem retryCalls_processOp (idx : String) (body : List BulkBodyEntry)
    (rf : Nat → String → Bool) (k : Nat) (opName : String) (op : BulkItemOp) :
    retryCalls (processOp idx body rf k opName op)
      = retrySpecOps idx body k [(opName, op)] := by
  cases ha : (opName != "") <;> cases hb : op.error.isSome <;>
    cases hc : (op.status == some 429) <;> cases hrf : rf k opName <;>
      simp [processOp, retrySpecOps, retryCalls, isRetryIndexCall, ha, hb, hc, hrf]

/-- The item specification decomposes along the operation list. -/
theorem retrySpecOps_cons (idx : String) (body : List BulkBodyEntry) (k : Nat)
    (p : String × BulkItemOp) (rest : BulkResponseItem) :
    retrySpecOps idx body k (p :: rest)
      = retrySpecOps idx body k [p] ++ retrySpecOps idx body k rest := by
  cases h : (p.1 != "" && p.2.error.isSome && p.2.status == some 429) <;>
    simp [retrySpecOps, List.filter_cons, h]

theorem retryCalls_processOps (idx : String) (body : List BulkBodyEntry)
    (rf : Nat → String → Bool) (k : Nat) (item : BulkResponseItem) :
    retryCalls (processOps idx body rf k item) = retrySpecOps idx body k item := by
  induction item with
  | nil => rfl
  | cons p rest ih =>
    obtain ⟨opName, op⟩ := p
    calc retryCalls (processOp idx body rf k opName op ++ processOps idx body rf k rest)
        = retryCalls (processOp idx body rf k opName op)
          ++ retryCalls (processOps idx body rf k rest) := by
          simp [retryCalls, List.filter_append]
      _ = retrySpecOps idx body k [(opName, op)] ++ retrySpecOps idx body k rest := by
          rw [retryCalls_processOp, ih]
      _ = retrySpecOps idx body k ((opName, op) :: rest) :=
          (retrySpecOps_cons idx body k (opName, op) rest).symm

theorem retryCalls_processItems (idx : String) (body : List BulkBodyEntry)
    (rf : Nat → String → Bool) (items : List BulkResponseItem) :
    ∀ k, retryCalls (processItems idx body rf k items) = retrySpec idx body k items := by
  induction items with
  | nil => intro k; rfl
  | cons item rest ih =>
    intro k
    calc retryCalls (processOps idx body rf k item ++ processItems idx body rf (k + 1) rest)
        = retryCalls (processOps idx body rf k item)
          ++ retryCalls (processItems idx body rf (k + 1) rest) := by
          simp [retryCalls, List.filter_append]
      _ = retrySpecOps idx body k item ++ retrySpec idx body (k + 1) rest := by
          rw [retryCalls_processOps, ih]
      _ = retrySpec idx body k (item :: rest) := rfl

theorem errorLogs_processOp (idx : String) (body : List BulkBodyEntry)
    (rf : Nat → String → Bool) (k : Nat) (opName : String) (op : BulkItemOp) :
    errorLogs (processOp idx body rf k opName op)
      = errorLogSpecOps body k [(opName, op)] := by
  cases ha : (opName != "") <;> cases hb : op.error.isSome <;>
    cases hc : (op.status == some 429) <;> cases hrf : rf k opName <;>
      simp [processOp, errorLogSpecOps, errorLogs, isBulkErrorLog, ha, hb, hc, hrf]

theorem errorLogSpecOps_cons (body : List BulkBodyEntry) (k : Nat)
    (p : String × BulkItemOp) (rest : BulkResponseItem) :
    errorLogSpecOps body k (p :: rest)
      = errorLogSpecOps body k [p] ++ errorLogSpecOps body k rest := by
  cases h : (p.1 != "" && p.2.error.isSome) <;>
    simp [errorLogSpecOps, List.filter_cons, h]

theorem errorLogs_processOps (idx : String) (body : List BulkBodyEntry)
    (rf : Nat → String → Bool) (k : Nat) (item : BulkResponseItem) :
    errorLogs (processOps idx body rf k item) = errorLogSpecOps body k item := by
  induction item with
  | nil => rfl
  | cons p rest ih =>
    obtain ⟨opName, op⟩ := p
    calc errorLogs (processOp idx body rf k opName op ++ processOps idx body rf k rest)
        = errorLogs (processOp idx body rf k opName op)
          ++ errorLogs (processOps idx body rf k rest) := by
          simp [errorLogs, List.filter_append]
      _ = errorLogSpecOps body k [(opName, op)] ++ errorLogSpecOps body k rest := by
          rw [errorLogs_processOp, ih]
      _ = errorLogSpecOps body k ((opName, op) :: rest) :=
          (errorLogSpecOps_cons body k (opName, op) rest).symm

theorem errorLogs_processItems (idx : String) (body : List BulkBodyEntry)
    (rf : Nat → String → Bool) (items : List BulkResponseItem) :
    ∀ k, errorLogs (processItems idx body rf k items) = errorLogSpec body k items := by
  induction items with
  | nil => intro k; rfl
  | cons item rest ih =>
    intro k
    calc errorLogs (processOps idx body rf k item ++ processItems idx body rf (k + 1) rest)
        = errorLogs (processOps idx body rf k item)
          ++ errorLogs (processItems idx body rf (k + 1) rest) := by
          simp [errorLogs, List.filter_append]
      _ = errorLogSpecOps body k item ++ errorLogSpec body (k + 1) rest := by
          rw [errorLogs_processOps, ih]
      _ = errorLogSpec body k (item :: rest) := rfl

/-- Effects of one operation are effects of the whole item. -/
theorem mem_processOps_of_mem (idx : String) (body : List BulkBodyEntry)
    (rf : Nat → String → Bool) (k : Nat) (item : BulkResponseItem)
    (opName : String) (op : BulkItemOp) (hmem : (opName, op) ∈ item)
    (e : EsEffect) (he : e ∈ processOp idx body rf k opName op) :
    e ∈ processOps idx body rf k item := by
  induction item with
  | nil => cases hmem
  | cons q rest ih =>
    obtain ⟨qn, qo⟩ := q
    rcases List.mem_cons.mp hmem with h | h
    · cases h
      exact List.mem_append_left _ he
    · exact List.mem_append_right _ (ih h)

/-- Effects of the `j`-th item are effects of the whole loop. -/
theorem mem_processItems_of_get (idx : String) (body : List BulkBodyEntry)
    (rf : Nat → String → Bool) (items : List BulkResponseItem) :
    ∀ (k j : Nat) (item : BulkResponseItem), items.get? j = some item →
      ∀ e, e ∈ processOps idx body rf (k + j) item →
        e ∈ processItems idx body rf k items := by
  induction items with
  | nil => intro k j item h; simp at h
  | cons it rest ih =>
    intro k j item h e he
    cases j with
    | zero =>
      have hit : it = item := by simpa using h
      subst hit
      exact List.mem_append_left _ (by simpa using he)
    | succ j' =>
      have h' : rest.get? j' = some item := by simpa using h
      refine List.mem_append_right _ (ih (k + 1) j' item h' e ?_)
      have harith : k + (j' + 1) = k + 1 + j' := by omega
      rw [harith] at he
      exact he

/-- C6: for every bulk response item reporting an error with status 429, the
executor issues exactly one single-document retry, addressed by the id at
flattened position `2k` and carrying the document at flattened position
`2k + 1` (the equational part characterizes the full retry sequence,
independently of whether the retries themselves fail, so a failed retry is
never retried again); and when the retry itself fails, that failure is logged
(and swallowed, since `logBulkErrorsAndRetry` always returns its effect
list). -/
theorem claim_C6_retry_429 (indexName : String) (resp : BulkResponse)
    (body : List BulkBodyEntry) (rf : Nat → String → Bool)
    (herr : resp.errors = true) :
    retryCalls (logBulkErrorsAndRetry indexName resp body rf)
      = retrySpec indexName body 0 resp.items
    ∧ (∀ k item opName op, resp.items.get? k = some item → (opName, op) ∈ item →
        (opName != "") = true → op.error.isSome = true →
        (op.status == some 429) = true → rf k opName = true →
        EsEffect.retryErrorLog (bodyId body k) indexName
          ∈ logBulkErrorsAndRetry indexName resp body rf) := by
  constructor
  · simp only [logBulkErrorsAndRetry, herr, if_true]
    exact retryCalls_processItems indexName body rf resp.items 0
  · intro k item opName op hget hmem ha hb hc hrf
    simp only [logBulkErrorsAndRetry, herr, if_true]
    refine mem_processItems_of_get indexName body rf resp.items 0 k item hget _ ?_
    refine mem_processOps_of_mem indexName body rf (0 + k) item opName op hmem _ ?_
    simp [processOp, ha, hb, hc, hrf, Nat.zero_add]

/-- C6 witness for `claim_C6_retry_429`. -/
theorem claim_C6_witness :
    retryCalls (logBulkErrorsAndRetry "gen" sampleResp429 sampleBody rfAlwaysFail)
      = retrySpec "gen" sampleBody 0 sampleResp429.items
    ∧ EsEffect.retryErrorLog (bodyId sampleBody 0) "gen"
      ∈ logBulkErrorsAndRetry "gen" sampleResp429 sampleBody rfAlwaysFail :=
  have h := claim_C6_retry_429 "gen" sampleResp429 sampleBody rfAlwaysFail rfl
  ⟨h.1, h.2 0 [("index", sampleOp429)] "index" sampleOp429 rfl (by decide) rfl rfl rfl rfl⟩

/-- C9: every failed bulk response item is logged as a bulk-index error with
its status, error payload and source document -- the equational part puts no
condition on the status, so 429 items are logged through the same path; the
second part makes the non-exclusivity explicit: an erroring 429 item is both
retried and logged. -/
theorem claim_C9_error_logging (indexName : String) (resp : BulkResponse)
    (body : List BulkBodyEntry) (rf : Nat → String → Bool)
    (herr : resp.errors = true) :
    errorLogs (logBulkErrorsAndRetry indexName resp body rf)
      = errorLogSpec body 0 resp.items
    ∧ (∀ k item opName op, resp.items.get? k = some item → (opName, op) ∈ item →
        (opName != "") = true → op.error.isSome = true →
        (op.status == some 429) = true →
        EsEffect.retryIndexCall indexName (bodyId body k) (bodyDoc body k)
          ∈ logBulkErrorsAndRetry indexName resp body rf
        ∧ EsEffect.bulkErrorLog (op.status.getD 0) op.error (bodyDoc body k)
          ∈ logBulkErrorsAndRetry indexName resp body rf) := by
  constructor
  · simp only [logBulkErrorsAndRetry, herr, if_true]
    exact errorLogs_processItems indexName body rf resp.items 0
  · intro k item opName op hget hmem ha hb hc
    simp only [logBulkErrorsAndRetry, herr, if_true]
    constructor
    · refine mem_processItems_of_get indexName body rf resp.items 0 k item hget _ ?_
      refine mem_processOps_of_mem indexName body rf (0 + k) item opName op hmem _ ?_
      simp [processOp, ha, hb, hc, Nat.zero_add]
    · refine mem_processItems_of_get indexName body rf resp.items 0 k item hget _ ?_
      refine mem_processOps_of_mem indexName body rf (0 + k) item opName op hmem _ ?_
      cases hrf : rf (0 + k) opName <;> simp [processOp, ha, hb, hc, hrf, Nat.zero_add]

/-- C9 witness for `claim_C9_error_logging`. -/
theorem claim_C9_witness :
    errorLogs (logBulkErrorsAndRetry "idx2" sampleResp429 sampleBody rfNeverFail)
      = errorLogSpec sampleBody 0 sampleResp429.items
    ∧ EsEffect.retryIndexCall "idx2" (bodyId sampleBody 0) (bodyDoc sampleBody 0)
      ∈ logBulkErrorsAndRetry "idx2" sampleResp429 sampleBody rfNeverFail
    ∧ EsEffect.bulkErrorLog (sampleOp429.status.getD 0) sampleOp429.error (bodyDoc sampleBody 0)
      ∈ logBulkErrorsAndRetry "idx2" sampleResp429 sampleBody rfNeverFail :=
  have h := claim_C9_error_logging "idx2" sampleResp429 sampleBody rfNeverFail rfl
  have h2 := h.2 0 [("index", sampleOp429)] "index" sampleOp429 rfl (by decide) rfl rfl rfl
  ⟨h.1, h2.1, h2.2⟩

/-! ## Order properties of the JS string comparison -/

theorem charListLe_refl (l : List Char) : charListLe l l = true := by
  induction l with
  | nil => rfl
  | cons a t ih => simp [charListLe, lt_self_iff_false, ih]

theorem charListLe_total (a b : List Char) :
    charListLe a b = true ∨ charListLe b a = true := by
  induction a generalizing b with
  | nil => left; rfl
  | cons x xs ih =>
    cases b with
    | nil => right; rfl
    | cons y ys =>
      rcases lt_trichotomy x y with h | h | h
      · left; simp [charListLe, h]
      · subst h
        rcases ih ys with h2 | h2
        · left; simp [charListLe, lt_self_iff_false, h2]
        · right; simp [charListLe, lt_self_iff_false, h2]
      · right; simp [charListLe, h]

theorem charListLe_trans {a b c : List Char} (h1 : charListLe a b = true)
    (h2 : charListLe b c = true) : charListLe a c = true := by
  induction a generalizing b c with
  | nil => rfl
  | cons x xs ih =>
    cases b with
    | nil => simp [charListLe] at h1
    | cons y ys =>
      cases c with
      | nil => simp [charListLe] at h2
      | cons z zs =>
        rcases lt_trichotomy x y with hxy | hxy | hxy
        · rcases lt_trichotomy y z with hyz | hyz | hyz
          · simp [charListLe, lt_trans hxy hyz]
          · subst hyz; simp [charListLe, hxy]
          · simp [charListLe, lt_asymm hyz, hyz] at h2
        · subst hxy
          simp only [charListLe, lt_self_iff_false, if_false] at h1
          rcases lt_trichotomy x z with hxz | hxz | hxz
          · simp [charListLe, hxz]
          · subst hxz
            simp only [charListLe, lt_self_iff_false, if_false] at h2 ⊢
            exact ih h1 h2
          · simp [charListLe, lt_asymm hxz, hxz] at h2
        · simp [charListLe, lt_asymm hxy, hxy] at h1

theorem charListLe_antisymm {a b : List Char} (h1 : charListLe a b = true)
    (h2 : charListLe b a = true) : a = b := by
  induction a generalizing b with
  | nil =>
    cases b with
    | nil => rfl
    | cons y ys => simp [charListLe] at h2
  | cons x xs ih =>
    cases b with
    | nil => simp [charListLe] at h1
    | cons y ys =>
      rcases lt_trichotomy x y with hxy | hxy | hxy
      · simp [charListLe, hxy, lt_asymm hxy] at h2
      · subst hxy
        simp only [charListLe, lt_self_iff_false, if_false] at h1 h2
        rw [ih h1 h2]
      · simp [charListLe, hxy, lt_asymm hxy] at h1

theorem jsStrLe_refl (s : String) : jsStrLe s s = true := charListLe_refl s.data

theorem jsStrLe_total (a b : String) : jsStrLe a b = true ∨ jsStrLe b a = true :=
  charListLe_total a.data b.data

theorem jsStrLe_trans {a b c : String} (h1 : jsStrLe a b = true)
    (h2 : jsStrLe b c = true) : jsStrLe a c = true :=
  charListLe_trans h1 h2

theorem jsStrLe_antisymm {a b : String} (h1 : jsStrLe a b = true)
    (h2 : jsStrLe b a = true) : a = b := by
  cases a with
  | mk la =>
    cases b with
    | mk lb => exact congrArg String.mk (charListLe_antisymm h1 h2)

/-! ## Properties of the sort model -/

theorem sortedInsert_perm (a : String) (l : List String) :
    List.Perm (sortedInsert a l) (a :: l) := by
  induction l with
  | nil => exact List.Perm.refl _
  | cons b t ih =>
    cases hh : jsStrLe a b with
    | true =>
      simp only [sortedInsert, hh]
      exact List.Perm.refl _
    | false =>
      simp only [sortedInsert, hh]
      exact (ih.cons b).trans (List.Perm.swap a b t)

theorem jsSortStrings_perm (l : List String) : List.Perm (jsSortStrings l) l := by
  induction l with
  | nil => exact List.Perm.refl _
  | cons a t ih => exact (sortedInsert_perm a (jsSortStrings t)).trans (ih.cons a)

theorem sortedInsert_pairwise (a : String) (l : List String)
    (h : l.Pairwise (fun x y => jsStrLe x y = true)) :
    (sortedInsert a l).Pairwise (fun x y => jsStrLe x y = true) := by
  induction l with
  | nil => simp [sortedInsert]
  | cons b t ih =>
    rcases List.pairwise_cons.mp h with ⟨hb, ht⟩
    cases hh : jsStrLe a b with
    | true =>
      simp only [sortedInsert, hh]
      refine List.pairwise_cons.mpr ⟨?_, h⟩
      intro y hy
      rcases List.mem_cons.mp hy with rfl | hy2
      · exact hh
      · exact jsStrLe_trans hh (hb y hy2)
    | false =>
      simp only [sortedInsert, hh]
      refine List.pairwise_cons.mpr ⟨?_, ih ht⟩
      intro y hy
      have hy' : y ∈ a :: t := (sortedInsert_perm a t).mem_iff.mp hy
      rcases List.mem_cons.mp hy' with rfl | hy2
      · rcases jsStrLe_total b y with h2 | h2
        · exact h2
        · exact absurd h2 (by simp [hh])
      · exact hb y hy2

theorem jsSortStrings_pairwise (l : List String) :
    (jsSortStrings l).Pairwise (fun x y => jsStrLe x y = true) := by
  induction l with
  | nil => simp [jsSortStrings]
  | cons a t ih => exact sortedInsert_pairwise a (jsSortStrings t) ih

/-- In a list sorted by `jsStrLe`, every element is bounded by the last one. -/
theorem pairwise_le_getLast? :
    ∀ (l : List String), l.Pairwise (fun x y => jsStrLe x y = true) →
      ∀ z, l.getLast? = some z → ∀ x ∈ l, jsStrLe x z = true := by
  intro l
  induction l with
  | nil => intro _ z hz; simp at hz
  | cons a t ih =>
    intro hp z hz x hx
    cases t with
    | nil =>
      have hza : a = z := by simpa using hz
      have hxa : x = a := by simpa using hx
      subst hza
      subst hxa
      exact jsStrLe_refl x
    | cons b t2 =>
      have hz' : (b :: t2).getLast? = some z := by
        simpa [List.getLast?_cons_cons] using hz
      rcases List.pairwise_cons.mp hp with ⟨ha, hp2⟩
      rcases List.mem_cons.mp hx with rfl | hx2
      · have hzmem : z ∈ b :: t2 := List.mem_of_getLast?_eq_some hz'
        exact ha z hzmem
      · exact ih hp2 z hz' x hx2

/-- The sorted copy of a list whose strict maximum is `g` splits into the
deleted part and `g`: `g` survives the `dropLast` and every other element is
dropped into it. -/
theorem dropLast_of_sorted_max (l : List String) (g : String)
    (hnd : l.Nodup) (hg : g ∈ l) (hmax : ∀ x ∈ l, jsStrLe x g = true) :
    g ∉ (jsSortStrings l).dropLast
    ∧ ∀ x ∈ l, x ≠ g → x ∈ (jsSortStrings l).dropLast := by
  have hperm := jsSortStrings_perm l
  have hgL : g ∈ jsSortStrings l := hperm.mem_iff.mpr hg
  have hLne : jsSortStrings l ≠ [] := List.ne_nil_of_mem hgL
  have hlast? : (jsSortStrings l).getLast? = some ((jsSortStrings l).getLast hLne) :=
    List.getLast?_eq_getLast _ hLne
  have hzg : (jsSortStrings l).getLast hLne = g := by
    have h1 : jsStrLe ((jsSortStrings l).getLast hLne) g = true :=
      hmax _ (hperm.subset (List.getLast_mem hLne))
    have h2 : jsStrLe g ((jsSortStrings l).getLast hLne) = true :=
      pairwise_le_getLast? _ (jsSortStrings_pairwise l) _ hlast? g hgL
    exact jsStrLe_antisymm h1 h2
  have hsplit : (jsSortStrings l).dropLast ++ [g] = jsSortStrings l := by
    rw [← hzg]
    exact List.dropLast_append_getLast hLne
  have hLnd : (jsSortStrings l).Nodup := hperm.nodup_iff.mpr hnd
  constructor
  · intro hmem
    rw [← hsplit] at hLnd
    exact (List.nodup_append.mp hLnd).2.2 hmem (List.mem_singleton.mpr rfl)
  · intro x hx hne
    have hxL : x ∈ jsSortStrings l := hperm.mem_iff.mpr hx
    rw [← hsplit] at hxL
    rcases List.mem_append.mp hxL with h | h
    · exact h
    · exact absurd (List.mem_singleton.mp h) hne

/-- Negated `contains` is membership negation. -/
theorem notContains_iff (l : List String) (x : String) :
    (!(l.contains x)) = true ↔ x ∉ l := by
  constructor
  · intro h hmem
    have hc : l.contains x = true := List.elem_iff.mpr hmem
    rw [hc] at h
    simp at h
  · intro h
    cases hc : l.contains x
    · rfl
    · exact absurd (List.elem_iff.mp hc) h

/-- C3 (amended): provided the generation `g1` currently bound to the alias is
the most recent generation matching the naming pattern other than the new
`g2`, `finalizeNewIndexRelease` leaves the alias resolving to exactly `g2`,
retains `g1` as the single rollback copy, and deletes every other matching
generation.  (The counterexample `claim_C3_counterexample` shows the proviso
is necessary: the code retains the lexicographically greatest old generation,
which need not be the one the alias was bound to.) -/
theorem claim_C3_rollover (sep ver nbReplicas refreshInterval indexAlias g1 g2 : String)
    (s : ClusterState)
    (hb : boundIndexes s indexAlias = [g1])
    (hnd : s.indices.Nodup)
    (hg1i : g1 ∈ s.indices)
    (hg2i : g2 ∈ s.indices)
    (hg1m : matchesIndexPattern (indexAlias ++ sep ++ ver ++ sep) g1 = true)
    (hne : g1 ≠ g2)
    (hmax : ∀ x ∈ s.indices,
      matchesIndexPattern (indexAlias ++ sep ++ ver ++ sep) x = true → x ≠ g2 →
        jsStrLe x g1 = true) :
    boundIndexes (finalizeNewIndexRelease sep ver nbReplicas refreshInterval indexAlias g2 s)
      indexAlias = [g2]
    ∧ g1 ∈ (finalizeNewIndexRelease sep ver nbReplicas refreshInterval indexAlias g2 s).indices
    ∧ g2 ∈ (finalizeNewIndexRelease sep ver nbReplicas refreshInterval indexAlias g2 s).indices
    ∧ ∀ x ∈ (finalizeNewIndexRelease sep ver nbReplicas refreshInterval indexAlias g2 s).indices,
        matchesIndexPattern (indexAlias ++ sep ++ ver ++ sep) x = true → x = g1 ∨ x = g2 := by
  set pat := indexAlias ++ sep ++ ver ++ sep with hpat
  set olds := (s.indices.filter (fun n => matchesIndexPattern pat n)).filter
    (fun n => n != g2) with holdsdef
  have holdsiff : ∀ x, x ∈ olds ↔
      x ∈ s.indices ∧ matchesIndexPattern pat x = true ∧ x ≠ g2 := by
    intro x
    simp [holdsdef, List.mem_filter, bne_iff_ne, and_assoc]
    tauto
  have holdsnd : olds.Nodup := (hnd.filter _).filter _
  have hg1olds : g1 ∈ olds := (holdsiff g1).mpr ⟨hg1i, hg1m, hne⟩
  have hmaxolds : ∀ x ∈ olds, jsStrLe x g1 = true := by
    intro x hx
    rcases (holdsiff x).mp hx with ⟨h1, h2, h3⟩
    exact hmax x h1 h2 h3
  obtain ⟨hg1keep, hdel⟩ := dropLast_of_sorted_max olds g1 holdsnd hg1olds hmaxolds
  have htd : oldIndicesToDelete sep ver indexAlias g2 s = (jsSortStrings olds).dropLast := rfl
  have hg2not : g2 ∉ oldIndicesToDelete sep ver indexAlias g2 s := by
    rw [htd]
    intro hmem
    have h1 : g2 ∈ jsSortStrings olds := List.mem_of_mem_dropLast hmem
    have h2 : g2 ∈ olds := (jsSortStrings_perm olds).subset h1
    exact ((holdsiff g2).mp h2).2.2 rfl
  have hg1not : g1 ∉ oldIndicesToDelete sep ver indexAlias g2 s := by
    rw [htd]; exact hg1keep
  have hb' : (s.aliasPairs.filter (fun q => q.1 == indexAlias)).map (fun q => q.2)
      = [g1] := hb
  have hAkeys : ∀ p ∈ s.aliasPairs, p.1 = indexAlias → p.2 = g1 := by
    intro p hp hp1
    have hpf : p ∈ s.aliasPairs.filter (fun q => q.1 == indexAlias) :=
      List.mem_filter.mpr ⟨hp, by simp [hp1]⟩
    have hmap : p.2 ∈ (s.aliasPairs.filter (fun q => q.1 == indexAlias)).map
        (fun q => q.2) := List.mem_map_of_mem _ hpf
    rw [hb'] at hmap
    exact List.mem_singleton.mp hmap
  have hswap : aliasSwapPairs indexAlias g2 s
      = s.aliasPairs.filter
          (fun p => !(p.1 == indexAlias && (([g1] : List String)).contains p.2))
        ++ [(indexAlias, g2)] := by
    simp only [aliasSwapPairs, hb]
    rfl
  have hQg2 : (!((oldIndicesToDelete sep ver indexAlias g2 s).contains g2)) = true :=
    (notContains_iff _ _).mpr hg2not
  have key : (finalizeNewIndexRelease sep ver nbReplicas refreshInterval indexAlias g2 s).aliasPairs
      = (s.aliasPairs.filter
          (fun p => !(p.1 == indexAlias && (([g1] : List String)).contains p.2))).filter
          (fun p => !((oldIndicesToDelete sep ver indexAlias g2 s).contains p.2))
        ++ [(indexAlias, g2)] := by
    show (aliasSwapPairs indexAlias g2 s).filter
        (fun p => !((oldIndicesToDelete sep ver indexAlias g2 s).contains p.2)) = _
    rw [hswap, List.filter_append]
    congr 1
    simp [List.filter_cons, hQg2]
    exact hg2not
  refine ⟨?_, ?_, ?_, ?_⟩
  · -- the alias resolves to exactly the new generation
    show ((finalizeNewIndexRelease sep ver nbReplicas refreshInterval indexAlias g2
        s).aliasPairs.filter (fun q => q.1 == indexAlias)).map (fun q => q.2) = [g2]
    rw [key, List.filter_append]
    have hGnil : ((s.aliasPairs.filter
        (fun p => !(p.1 == indexAlias && (([g1] : List String)).contains p.2))).filter
        (fun p => !((oldIndicesToDelete sep ver indexAlias g2 s).contains p.2))).filter
        (fun q => q.1 == indexAlias) = [] := by
      refine List.filter_eq_nil_iff.mpr ?_
      intro p hp hpeq
      have hpF := List.mem_of_mem_filter hp
      rcases List.mem_filter.mp hpF with ⟨hpmem, hpcond⟩
      have h1 : p.1 = indexAlias := by simpa using hpeq
      have h2 : p.2 = g1 := hAkeys p hpmem h1
      simp [h1, h2] at hpcond
    rw [hGnil]
    simp
  · -- the previously bound generation survives as rollback copy
    show g1 ∈ s.indices.filter
      (fun n => !((oldIndicesToDelete sep ver indexAlias g2 s).contains n))
    exact List.mem_filter.mpr ⟨hg1i, (notContains_iff _ _).mpr hg1not⟩
  · -- the new generation survives
    show g2 ∈ s.indices.filter
      (fun n => !((oldIndicesToDelete sep ver indexAlias g2 s).contains n))
    exact List.mem_filter.mpr ⟨hg2i, (notContains_iff _ _).mpr hg2not⟩
  · -- every other matching generation is deleted
    intro x hx hpatx
    have hx' : x ∈ s.indices.filter
        (fun n => !((oldIndicesToDelete sep ver indexAlias g2 s).contains n)) := hx
    rcases List.mem_filter.mp hx' with ⟨hxs, hxnot⟩
    by_contra hcon
    push_neg at hcon
    rcases hcon with ⟨hxg1, hxg2⟩
    have hxolds : x ∈ olds := (holdsiff x).mpr ⟨hxs, hpatx, hxg2⟩
    have hxdel : x ∈ (jsSortStrings olds).dropLast := hdel x hxolds hxg1
    rw [← htd] at hxdel
    exact absurd hxdel ((notContains_iff _ _).mp hxnot)

/-- C3 counterexample: with the alias bound to `td-0-1` while a newer unbound
generation `td-0-2` matches the naming pattern, finalizing `td-0-3` deletes
the previously bound `td-0-1` and retains `td-0-2` instead -- the claim that
the bound generation G1 is the retained rollback copy fails. -/
theorem claim_C3_counterexample :
    boundIndexes staleBoundCluster "td" = ["td-0-1"]
    ∧ (finalizeNewIndexRelease "-" "0" "3" "1s" "td" "td-0-3" staleBoundCluster).indices
      = ["td-0-2", "td-0-3"]
    ∧ "td-0-1" ∉
      (finalizeNewIndexRelease "-" "0" "3" "1s" "td" "td-0-3" staleBoundCluster).indices := by
  decide

/-- C3 witness for `claim_C3_rollover`. -/
theorem claim_C3_witness :
    boundIndexes (finalizeNewIndexRelease "-" "0" "3" "1s" "td" "td-0-3" sampleCluster) "td"
      = ["td-0-3"]
    ∧ "td-0-2" ∈ (finalizeNewIndexRelease "-" "0" "3" "1s" "td" "td-0-3" sampleCluster).indices
    ∧ "td-0-3" ∈ (finalizeNewIndexRelease "-" "0" "3" "1s" "td" "td-0-3" sampleCluster).indices :=
  have h := claim_C3_rollover "-" "0" "3" "1s" "td" "td-0-2" "td-0-3" sampleCluster
    (by decide) (by decide) (by decide) (by decide) (by decide) (by decide) (by decide)
  ⟨h.1, h.2.1, h.2.2.1⟩
